import Mathlib

/-!
Verification of the Hatchmark authenticity service core: the LSB watermark
encoder (`HatchmarkWatermarker.apply_watermark` in src/watermarker/main.py),
the spec-described decoder (`WatermarkCodec.decode`, which the repository
delegates to the external steganography library), the verdict engine
(`_determine_verdict` in src/backend/src/handlers/verification_handler.py),
and the queue-driven watermarking worker loop (`process_sqs_message` in
src/watermarker/main.py).

Python strings are modelled as lists of Unicode code points; a PixelBuffer is
the raster-order list of RGB triples, exactly `list(image.getdata())`.
All definitions are executable; confidences are rationals.
-/

namespace Hatchmark

/-- One RGB pixel; channel values of a decoded image lie in [0, 255]. -/
structure Pixel where
  r : Nat
  g : Nat
  b : Nat
deriving DecidableEq, Repr

/-- A PixelBuffer in raster order (row-major), i.e. `list(image.getdata())`. -/
abbrev Image := List Pixel

/-- MSB-first binary digits of `n` with no leading zeros (`[]` for 0);
`fuel`-structured version of repeated division by two (`fuel = n` suffices
since a number needs no more digits than its own value). -/
def natBinAux : Nat → Nat → List Bool
  | 0, _ => []
  | _ + 1, 0 => []
  | fuel + 1, n + 1 => natBinAux fuel ((n + 1) / 2) ++ [decide ((n + 1) % 2 = 1)]

/-- Binary digits of `n`, MSB first, no leading zeros; `[]` for 0. -/
def natBin (n : Nat) : List Bool :=
  natBinAux n n

/-- Python `format(c, '08b')`: the binary digits of `c`, left-padded with
zeros to a minimum width of 8 (wider when `c ≥ 256`). -/
def pyFormat08b (c : Nat) : List Bool :=
  List.replicate (8 - (natBin c).length) false ++ natBin c

/-- The 16-bit end-of-payload sentinel `'1111111111111110'`
(src/watermarker/main.py line 75). -/
def delimiter : List Bool :=
  [true, true, true, true, true, true, true, true,
   true, true, true, true, true, true, true, false]

/-- Definition of `watermark_binary`: the embedded bit stream, i.e. the payload's characters
expanded by `format(ord(char), '08b')` with the sentinel appended
(src/watermarker/main.py lines 74-75). The payload string is given by its
code points. -/
def watermark_binary (payload : List Nat) : List Bool :=
  (payload.map pyFormat08b).flatten ++ delimiter

/-- One step of the embedding loop body: `r = (r & 0xFE) | bit`
(src/watermarker/main.py line 91); green and blue are untouched. -/
def setLsb (px : Pixel) (bit : Bool) : Pixel :=
  { px with r := (px.r &&& 0xFE) ||| (if bit then 1 else 0) }

/-- The embedding loop (src/watermarker/main.py lines 86-95): write one bit
per pixel in raster order while bits remain, leaving all later pixels
unchanged; if the pixels run out first, the remaining bits are dropped. -/
def embedBits : Image → List Bool → Image
  | img, [] => img
  | [], _ :: _ => []
  | px :: rest, bit :: bits => setLsb px bit :: embedBits rest bits

/-- Embedding of `HatchmarkWatermarker.apply_watermark` (src/watermarker/main.py
lines 69-104) on an RGB image: a new buffer whose leading pixels carry the
stream `watermark_binary payload` in their red LSBs. The function is pure:
the source is copied (`image.copy()`), never mutated, and the loop performs
no capacity check. -/
def apply_watermark (img : Image) (payload : List Nat) : Image :=
  embedBits img (watermark_binary payload)

/-- LSB of the red channel of one pixel. -/
def redLsb (px : Pixel) : Bool :=
  px.r.testBit 0

/-- The raster-order stream of red-channel LSBs scanned by the decoder. -/
def lsbStream (img : Image) : List Bool :=
  img.map redLsb

/-- Index of the first 16-bit window of the stream equal to `delimiter`,
`none` when no window matches. -/
def firstMarkerIndex : List Bool → Option Nat
  | [] => none
  | bit :: rest =>
      if (bit :: rest).take 16 = delimiter then some 0
      else (firstMarkerIndex rest).map (· + 1)

/-- Value of an MSB-first group of bits. -/
def byteVal (bs : List Bool) : Nat :=
  bs.foldl (fun a bit => 2 * a + (if bit then 1 else 0)) 0

/-- Assemble a bit stream into bytes, 8 bits per byte MSB first, dropping a
trailing incomplete group. -/
def bitsToBytes : List Bool → List Nat
  | b0 :: b1 :: b2 :: b3 :: b4 :: b5 :: b6 :: b7 :: rest =>
      byteVal [b0, b1, b2, b3, b4, b5, b6, b7] :: bitsToBytes rest
  | _ => []

/-- Modelled from the spec: `WatermarkCodec.decode` (§4.2). The repository
delegates decoding to the external steganography library
(`Steganography.decode`, called from `_extract_watermark` in
src/backend/src/handlers/verification_handler.py lines 169-190), whose code
is not part of this repository. The spec describes the decoder: scan red
LSBs in raster order, stop at the first occurrence of the 16-bit marker and
return the bytes assembled before it, or report no watermark when the marker
never occurs within the scanned bits. -/
def decode_watermark (img : Image) : Option (List Nat) :=
  match firstMarkerIndex (lsbStream img) with
  | none => none
  | some i => some (bitsToBytes ((lsbStream img).take i))

/-- A Python string, given as its list of Unicode code points; comparison of
such lists under the lexicographic order is exactly Python string
comparison. -/
abbrev Str := List Char

/-- Truthiness of an optional Python string: `None` and the empty string are
falsy, everything else is truthy. -/
def pyTruthy : Option Str → Bool
  | none => false
  | some s => decide (s ≠ [])

/-- A ledger registration record as consumed by `_determine_verdict`: a Python
dict whose `documentId` and `timestamp` keys may be absent
(`latest_record.get('documentId')`, `x.get('timestamp', '')`). -/
structure Record where
  documentId : Option Str
  timestamp : Option Str
deriving DecidableEq, Repr

instance : Inhabited Record := ⟨⟨none, none⟩⟩

/-- Sort key used at verification_handler.py line 263:
`x.get('timestamp', '')`. -/
def tsKey (r : Record) : Str :=
  r.timestamp.getD []

/-- Stable descending insertion: place `x` before the first element with a
strictly smaller key, after earlier-inserted elements with an equal or larger
key. -/
def insertDesc (x : Record) : List Record → List Record
  | [] => [x]
  | y :: ys => if tsKey x < tsKey y then y :: insertDesc x ys else x :: y :: ys

/-- The in-place `registration_records.sort(key=lambda x: x.get('timestamp',
''), reverse=True)` of verification_handler.py line 263: Python's sort is
stable and `reverse=True` preserves the original order of equal keys, so its
output is the unique stable descending order, realised here by insertion. -/
def sortDesc (l : List Record) : List Record :=
  l.foldr insertDesc []

/-- The record `_determine_verdict` takes as `latest_record`
(verification_handler.py lines 259-264): `records[0]`, re-read after the
in-place descending sort whenever the list has more than one element. -/
def codeLatest (rs : List Record) : Record :=
  if 1 < rs.length then (sortDesc rs).headI else rs.headI

/-- The three classifications a verdict can carry. -/
inductive Classification
  | VERIFIED
  | POTENTIALLY_ALTERED
  | NOT_REGISTERED
deriving DecidableEq, Repr

/-- The `details` dict of the verdict (verification_handler.py lines
241-251); `watermarkMismatch` / `missingWatermark` model the optional keys
added at lines 278 and 283, absent by default. -/
structure Details where
  watermarkFound : Bool
  hashMatch : Bool
  registrationDate : Option Str
  documentId : Option Str
  perceptualHash : Str
  watermarkMismatch : Bool
  missingWatermark : Bool
deriving DecidableEq, Repr

/-- The verdict value returned by `_determine_verdict`. -/
structure VerdictData where
  verdict : Classification
  confidence : ℚ
  details : Details
deriving DecidableEq, Repr

/-- The first branch condition at verification_handler.py line 270:
`watermark_data and watermark_data == latest_record.get('documentId')`
(a missing `documentId` compares unequal to any string). -/
def watermarkMatchesLatest (wm : Option Str) (latest : Record) : Bool :=
  pyTruthy wm &&
    (match wm, latest.documentId with
     | some s, some d => decide (s = d)
     | _, _ => false)

/-- Embedding of `_determine_verdict` (verification_handler.py lines 237-285), modelled
with explicit state passing for its one mutation: the function sorts the
caller's record list in place, so it returns the verdict together with the
list's state after the call. -/
def determine_verdict (wm : Option Str) (ph : Str) (rs : List Record) :
    VerdictData × List Record :=
  let base : Details :=
    { watermarkFound := wm.isSome
      hashMatch := decide (0 < rs.length)
      registrationDate := none
      documentId := none
      perceptualHash := ph
      watermarkMismatch := false
      missingWatermark := false }
  if rs.isEmpty then
    (⟨Classification.NOT_REGISTERED, 95 / 100, base⟩, rs)
  else
    let rs2 := if 1 < rs.length then sortDesc rs else rs
    let latest := codeLatest rs
    let d := { base with
                registrationDate := latest.timestamp
                documentId := latest.documentId }
    if watermarkMatchesLatest wm latest then
      (⟨Classification.VERIFIED, 98 / 100, d⟩, rs2)
    else if pyTruthy wm then
      (⟨Classification.POTENTIALLY_ALTERED, 60 / 100,
        { d with watermarkMismatch := true }⟩, rs2)
    else if 0 < rs2.length then
      (⟨Classification.POTENTIALLY_ALTERED, 75 / 100,
        { d with missingWatermark := true }⟩, rs2)
    else
      (⟨Classification.NOT_REGISTERED, 0, d⟩, rs2)

/-! Worker loop model. `process_sqs_message` (src/watermarker/main.py lines
273-339) is a sequence of externally-fallible steps; each run is determined
by which steps succeed, and we record the trace of external actions it
performs. -/

/-- External actions the worker performs while handling one message. The
upload action records whether the uploaded buffer actually carries the
watermark (`embed_watermark` falls back to the original image on failure). -/
inductive WAction
  | receive
  | download
  | embedAttempt
  | upload (watermarked : Bool)
  | deleteMessage
deriving DecidableEq, Repr

/-- Outcome of each externally-determined step of one
`process_sqs_message` run. `stegOk` is whether the steganography call inside
`embed_watermark` succeeds (in the repository as shipped it never does:
`Steganography` is not imported in src/watermarker/main.py, so the call
raises `NameError` and the fallback returns the original image). -/
structure JobEnv where
  hasMessage : Bool
  jsonOk : Bool
  keysPresent : Bool
  downloadOk : Bool
  stegOk : Bool
  uploadOk : Bool
deriving DecidableEq, Repr

/-- Result of one `process_sqs_message` run: the ordered trace of external
actions, and whether an exception propagated to the caller. -/
structure JobOutcome where
  trace : List WAction
  raised : Bool
deriving DecidableEq, Repr

/-- Embedding of `process_sqs_message` (src/watermarker/main.py lines 273-339), production
path with a queue configured: receive; on an empty poll return; on a JSON
parse failure the inner handler re-raises; on missing `objectKey` or
`qldbDocumentId` return without deleting; download (raises on failure);
`embed_watermark` (never raises, falls back to the original image); upload
(raises on failure); and only then `delete_message`. -/
def process_sqs_message (env : JobEnv) : JobOutcome :=
  if !env.hasMessage then ⟨[WAction.receive], false⟩
  else if !env.jsonOk then ⟨[WAction.receive], true⟩
  else if !env.keysPresent then ⟨[WAction.receive], false⟩
  else if !env.downloadOk then ⟨[WAction.receive, WAction.download], true⟩
  else if !env.uploadOk then
    ⟨[WAction.receive, WAction.download, WAction.embedAttempt,
      WAction.upload env.stegOk], true⟩
  else
    ⟨[WAction.receive, WAction.download, WAction.embedAttempt,
      WAction.upload env.stegOk, WAction.deleteMessage], false⟩

/-- Embedding of `embed_watermark` (src/watermarker/main.py lines 224-252): the try-block
either produces a watermarked image (`stegResult = some w`) or fails
(`stegResult = none`), and the catch-all except clause returns the original
image on failure, never re-raising. -/
def embed_watermark (stegResult : Option Image) (img : Image) : Image :=
  match stegResult with
  | some w => w
  | none => img

/-- The catch-all except clause of `apply_watermark` (src/watermarker/main.py
lines 101-104): if anything inside the try-block raises, the original image
is returned instead of the exception propagating. -/
def apply_watermark_guarded (internalError : Bool) (img : Image)
    (payload : List Nat) : Image :=
  if internalError then img else apply_watermark img payload

/-- Whether the bare module name `io` is bound in src/watermarker/main.py:
the file imports only `from io import BytesIO` (line 14) and never
`import io`, so the name is unbound and every `io.BytesIO(...)` expression
in the module raises NameError when evaluated. -/
def ioNameBound : Bool := false

/-- Completion outcome of `download_image_from_s3` (src/watermarker/main.py
lines 183-199): after the S3 get (which itself may fail), line 191 evaluates
`io.BytesIO(image_data)`, which raises NameError since `io` is unbound; both
except clauses re-raise. The call completes without raising only when the
S3 get succeeds and the name `io` resolves — that is, never. -/
def download_image_from_s3_ok (s3GetOk : Bool) : Bool :=
  s3GetOk && ioNameBound

/-- Completion outcome of `upload_image_to_s3` (src/watermarker/main.py
lines 201-222): line 205 evaluates `io.BytesIO()`, which raises NameError
since `io` is unbound; the except clause re-raises. The call completes
without raising only when the S3 put succeeds and the name `io` resolves —
that is, never. -/
def upload_image_to_s3_ok (s3PutOk : Bool) : Bool :=
  s3PutOk && ioNameBound

/-- The step outcomes of one run of the worker as shipped: the download and
upload outcomes are computed from the helper functions above instead of
being assumed, so only the queue read, JSON shape, S3 operations and the
steganography call remain environmental. -/
def shippedEnv (hasMessage jsonOk keysPresent s3GetOk stegOk s3PutOk : Bool) :
    JobEnv :=
  ⟨hasMessage, jsonOk, keysPresent, download_image_from_s3_ok s3GetOk,
   stegOk, upload_image_to_s3_ok s3PutOk⟩

/-! Spec-side definitions, written from the claims' words, to be compared
with the code-side definitions above. -/

/-- The bit sequence the spec describes for the embedded prefix: payload
bytes expanded 8 bits per byte, most-significant bit first, followed by the
16-bit marker. -/
def specBits (payload : List Nat) : List Bool :=
  (payload.map (fun c =>
    [c.testBit 7, c.testBit 6, c.testBit 5, c.testBit 4,
     c.testBit 3, c.testBit 2, c.testBit 1, c.testBit 0])).flatten ++ delimiter

/-- Of two records, the one the spec prefers as later: the second only when
its timestamp is strictly greater, so that the earlier record wins ties. -/
def pickLater (b y : Record) : Record :=
  if tsKey b < tsKey y then y else b

/-- The claim's "latest record": the record with the lexicographically
greatest timestamp string, the first one in input order when several share
that greatest timestamp. -/
def specLatest : List Record → Option Record
  | [] => none
  | x :: xs => some (xs.foldl pickLater x)

/-- The claim C4 decision table exactly as stated, rows in priority order
with "present" read as `isSome` and "absent" as `isNone`: (absent, empty) →
NOT_REGISTERED 0.95; (equals latest id, non-empty) → VERIFIED 0.98;
(present ≠ latest id, non-empty) → POTENTIALLY_ALTERED 0.60; (absent,
non-empty) → POTENTIALLY_ALTERED 0.75. Inputs matching no row map to
`none`. -/
def claimVerdictTable (wm : Option Str) : List Record →
    Option (Classification × ℚ)
  | [] => if wm.isNone then some (Classification.NOT_REGISTERED, 95 / 100) else none
  | r0 :: rtl =>
      let latest := rtl.foldl pickLater r0
      if (match wm, latest.documentId with
          | some s, some d => decide (s = d)
          | _, _ => false) then
        some (Classification.VERIFIED, 98 / 100)
      else if wm.isSome then
        some (Classification.POTENTIALLY_ALTERED, 60 / 100)
      else
        some (Classification.POTENTIALLY_ALTERED, 75 / 100)

/-- The amended decision table: as claimed, except that "present" means
present and non-empty (Python truthiness), so an empty-string payload is
treated as absent throughout. -/
def amendedVerdictTable (wm : Option Str) : List Record →
    Option (Classification × ℚ)
  | [] => if pyTruthy wm then none else some (Classification.NOT_REGISTERED, 95 / 100)
  | r0 :: rtl =>
      let latest := rtl.foldl pickLater r0
      if watermarkMatchesLatest wm latest then
        some (Classification.VERIFIED, 98 / 100)
      else if pyTruthy wm then
        some (Classification.POTENTIALLY_ALTERED, 60 / 100)
      else
        some (Classification.POTENTIALLY_ALTERED, 75 / 100)

/-! Lemmas about the embedding loop and the bit-level helpers. -/

theorem embedBits_length (img : Image) (bs : List Bool) :
    (embedBits img bs).length = img.length := by
  induction img generalizing bs with
  | nil => cases bs <;> rfl
  | cons px rest ih =>
      cases bs with
      | nil => rfl
      | cons bit bits => simp [embedBits, ih]

theorem embedBits_getElem? (img : Image) (bs : List Bool) (i : Nat) :
    (embedBits img bs)[i]? =
      img[i]?.map (fun px =>
        match bs[i]? with
        | some bit => setLsb px bit
        | none => px) := by
  induction img generalizing bs i with
  | nil => cases bs <;> simp [embedBits]
  | cons px rest ih =>
      cases bs with
      | nil => simp [embedBits]
      | cons bit bits =>
          cases i with
          | zero => simp [embedBits]
          | succ j => simpa [embedBits] using ih bits j

theorem redLsb_setLsb (px : Pixel) (bit : Bool) : redLsb (setLsb px bit) = bit := by
  have h254 : (254 : Nat).testBit 0 = false := by decide
  have h1 : (1 : Nat).testBit 0 = true := by decide
  have h0 : (0 : Nat).testBit 0 = false := by decide
  cases bit <;>
    simp [redLsb, setLsb, Nat.testBit_lor, Nat.testBit_land, h254, h1, h0]

theorem lsbStream_embedBits (img : Image) (bs : List Bool)
    (h : bs.length ≤ img.length) :
    lsbStream (embedBits img bs) = bs ++ (img.drop bs.length).map redLsb := by
  induction bs generalizing img with
  | nil => simp [lsbStream, embedBits]
  | cons bit bits ih =>
      cases img with
      | nil => simp at h
      | cons px rest =>
          have h2 : bits.length ≤ rest.length := by
            simp only [List.length_cons] at h; omega
          calc lsbStream (embedBits (px :: rest) (bit :: bits))
              = redLsb (setLsb px bit) :: lsbStream (embedBits rest bits) := rfl
            _ = bit :: (bits ++ (rest.drop bits.length).map redLsb) := by
                rw [redLsb_setLsb, ih rest h2]
            _ = (bit :: bits) ++ ((px :: rest).drop (bit :: bits).length).map redLsb := by
                simp

theorem lsbStream_embedBits_trunc (img : Image) (bs : List Bool)
    (h : img.length ≤ bs.length) :
    lsbStream (embedBits img bs) = bs.take img.length := by
  induction img generalizing bs with
  | nil => cases bs <;> simp [lsbStream, embedBits]
  | cons px rest ih =>
      cases bs with
      | nil => simp at h
      | cons bit bits =>
          have h2 : rest.length ≤ bits.length := by
            simp only [List.length_cons] at h; omega
          calc lsbStream (embedBits (px :: rest) (bit :: bits))
              = redLsb (setLsb px bit) :: lsbStream (embedBits rest bits) := rfl
            _ = bit :: bits.take rest.length := by rw [redLsb_setLsb, ih bits h2]
            _ = (bit :: bits).take (px :: rest).length := by simp

theorem firstMarkerIndex_eq (bits : List Bool) (n : Nat)
    (h1 : (bits.drop n).take 16 = delimiter)
    (h2 : ∀ j < n, (bits.drop j).take 16 ≠ delimiter) :
    firstMarkerIndex bits = some n := by
  induction bits generalizing n with
  | nil =>
      exfalso
      have he : ((List.nil (α := Bool)).drop n).take 16 = [] := by simp
      rw [he] at h1
      exact absurd h1 (by decide)
  | cons b rest ih =>
      cases n with
      | zero =>
          simp only [List.drop_zero] at h1
          simp [firstMarkerIndex, h1]
      | succ m =>
          have hne : ¬ (b :: rest).take 16 = delimiter := by
            have hw := h2 0 (Nat.succ_pos m)
            rwa [List.drop_zero] at hw
          have ih2 := ih m (by simpa using h1) (fun j hj => by
            have hw := h2 (j + 1) (Nat.succ_lt_succ hj)
            simpa using hw)
          have hstep : firstMarkerIndex (b :: rest) =
              if (b :: rest).take 16 = delimiter then some 0
              else (firstMarkerIndex rest).map (· + 1) := rfl
          rw [hstep, if_neg hne, ih2]
          rfl

set_option maxRecDepth 10000 in
theorem pyFormat08b_testBit : ∀ c < 256, pyFormat08b c =
    [c.testBit 7, c.testBit 6, c.testBit 5, c.testBit 4,
     c.testBit 3, c.testBit 2, c.testBit 1, c.testBit 0] := by decide

set_option maxRecDepth 10000 in
theorem byteVal_testBits : ∀ c < 256,
    byteVal [c.testBit 7, c.testBit 6, c.testBit 5, c.testBit 4,
             c.testBit 3, c.testBit 2, c.testBit 1, c.testBit 0] = c := by decide

theorem bitsToBytes_flatten : ∀ p : List Nat, (∀ c ∈ p, c < 256) →
    bitsToBytes ((p.map pyFormat08b).flatten) = p := by
  intro p
  induction p with
  | nil => intro _; rfl
  | cons c q ih =>
      intro hb
      have hc : c < 256 := hb c (List.mem_cons_self c q)
      have hq : ∀ x ∈ q, x < 256 := fun x hx => hb x (List.mem_cons_of_mem c hx)
      rw [List.map_cons, List.flatten_cons, pyFormat08b_testBit c hc]
      show byteVal [c.testBit 7, c.testBit 6, c.testBit 5, c.testBit 4,
          c.testBit 3, c.testBit 2, c.testBit 1, c.testBit 0]
        :: bitsToBytes ((q.map pyFormat08b).flatten) = c :: q
      rw [byteVal_testBits c hc, ih hq]

theorem length_flatten_pyFormat08b : ∀ p : List Nat, (∀ c ∈ p, c < 256) →
    ((p.map pyFormat08b).flatten).length = 8 * p.length := by
  intro p
  induction p with
  | nil => intro _; rfl
  | cons c q ih =>
      intro hb
      have hc : c < 256 := hb c (List.mem_cons_self c q)
      have hq : ∀ x ∈ q, x < 256 := fun x hx => hb x (List.mem_cons_of_mem c hx)
      rw [List.map_cons, List.flatten_cons, List.length_append,
          pyFormat08b_testBit c hc, ih hq]
      simp only [List.length_cons, List.length_nil]
      omega

theorem map_pyFormat08b_eq : ∀ p : List Nat, (∀ c ∈ p, c < 256) →
    p.map pyFormat08b = p.map (fun c =>
      [c.testBit 7, c.testBit 6, c.testBit 5, c.testBit 4,
       c.testBit 3, c.testBit 2, c.testBit 1, c.testBit 0]) := by
  intro p
  induction p with
  | nil => intro _; rfl
  | cons c q ih =>
      intro hb
      have hc : c < 256 := hb c (List.mem_cons_self c q)
      have hq : ∀ x ∈ q, x < 256 := fun x hx => hb x (List.mem_cons_of_mem c hx)
      simp [pyFormat08b_testBit c hc, ih hq]

theorem watermark_binary_eq_specBits (p : List Nat) (hb : ∀ c ∈ p, c < 256) :
    watermark_binary p = specBits p := by
  unfold watermark_binary specBits
  rw [map_pyFormat08b_eq p hb]

set_option maxRecDepth 2000 in
theorem delimiter_getElem_lt15 : ∀ k < 15, delimiter[k]? = some true := by decide

theorem delimiter_getElem_15 : delimiter[15]? = some false := by decide

/-! Lemmas about the stable descending sort and the latest record. -/

theorem insertDesc_ne_nil (x : Record) (l : List Record) : insertDesc x l ≠ [] := by
  cases l with
  | nil => simp [insertDesc]
  | cons y ys =>
      simp only [insertDesc]
      split <;> simp

theorem headI_insertDesc (x h : Record) (t : List Record) :
    (insertDesc x (h :: t)).headI = if tsKey x < tsKey h then h else x := by
  simp only [insertDesc]
  split <;> simp

theorem pickLater_assoc (a b c : Record) :
    pickLater (pickLater a b) c = pickLater a (pickLater b c) := by
  unfold pickLater
  by_cases h1 : tsKey a < tsKey b
  · rw [if_pos h1]
    by_cases h2 : tsKey b < tsKey c
    · rw [if_pos h2, if_pos (lt_trans h1 h2)]
    · rw [if_neg h2, if_pos h1]
  · rw [if_neg h1]
    by_cases h2 : tsKey b < tsKey c
    · rw [if_pos h2]
    · rw [if_neg h2, if_neg h1,
          if_neg (not_lt.mpr (le_trans (not_lt.mp h2) (not_lt.mp h1)))]

theorem foldl_pickLater_pick (l : List Record) :
    ∀ x y : Record, l.foldl pickLater (pickLater x y) =
      if tsKey x < tsKey (l.foldl pickLater y) then l.foldl pickLater y else x := by
  induction l with
  | nil =>
      intro x y
      simp only [List.foldl_nil]
      rfl
  | cons z zs ih =>
      intro x y
      simp only [List.foldl_cons]
      rw [pickLater_assoc]
      exact ih x (pickLater y z)

theorem sortDesc_cons (x : Record) (l : List Record) :
    sortDesc (x :: l) = insertDesc x (sortDesc l) := rfl

theorem sortDesc_ne_nil (x : Record) (l : List Record) : sortDesc (x :: l) ≠ [] := by
  rw [sortDesc_cons]
  exact insertDesc_ne_nil x (sortDesc l)

theorem headI_sortDesc : ∀ (xs : List Record) (x : Record),
    (sortDesc (x :: xs)).headI = xs.foldl pickLater x := by
  intro xs
  induction xs with
  | nil => intro x; rfl
  | cons y ys ih =>
      intro x
      rw [sortDesc_cons]
      obtain ⟨h, t, he⟩ := List.exists_cons_of_ne_nil (sortDesc_ne_nil y ys)
      rw [he, headI_insertDesc]
      have hh : h = ys.foldl pickLater y := by
        have hy := ih y
        rw [he] at hy
        simpa using hy
      rw [List.foldl_cons, foldl_pickLater_pick ys x y, hh]

theorem codeLatest_eq_specLatest (rs : List Record) (h : rs ≠ []) :
    some (codeLatest rs) = specLatest rs := by
  cases rs with
  | nil => exact absurd rfl h
  | cons x xs =>
      cases xs with
      | nil => rfl
      | cons y ys =>
          have hlen : 1 < (x :: y :: ys).length := by simp
          unfold codeLatest
          rw [if_pos hlen, headI_sortDesc]
          rfl

theorem tsKey_le_foldl_pickLater : ∀ (xs : List Record) (x : Record),
    ∀ r ∈ x :: xs, tsKey r ≤ tsKey (xs.foldl pickLater x) := by
  intro xs
  induction xs with
  | nil =>
      intro x r hr
      rw [List.foldl_nil]
      rcases List.mem_singleton.mp hr with rfl
      exact le_refl _
  | cons y ys ih =>
      intro x r hr
      rw [List.foldl_cons]
      have hx : tsKey x ≤ tsKey (pickLater x y) := by
        unfold pickLater
        split_ifs with hxy
        · exact le_of_lt hxy
        · exact le_refl _
      have hy : tsKey y ≤ tsKey (pickLater x y) := by
        unfold pickLater
        split_ifs with hxy
        · exact le_refl _
        · exact not_lt.mp hxy
      have hhead := ih (pickLater x y) (pickLater x y) (List.mem_cons_self _ _)
      rcases List.mem_cons.mp hr with rfl | h
      · exact le_trans hx hhead
      · rcases List.mem_cons.mp h with rfl | h2
        · exact le_trans hy hhead
        · exact ih (pickLater x y) r (List.mem_cons_of_mem _ h2)

theorem insertDesc_perm (x : Record) (l : List Record) :
    (insertDesc x l).Perm (x :: l) := by
  induction l with
  | nil => exact List.Perm.refl _
  | cons y ys ih =>
      simp only [insertDesc]
      split
      · exact (ih.cons y).trans (List.Perm.swap x y ys)
      · exact List.Perm.refl _

theorem sortDesc_perm (l : List Record) : (sortDesc l).Perm l := by
  induction l with
  | nil => exact List.Perm.refl _
  | cons x xs ih =>
      rw [sortDesc_cons]
      exact (insertDesc_perm x (sortDesc xs)).trans (ih.cons x)

theorem delimiter_length : delimiter.length = 16 := rfl

theorem watermark_binary_length (p : List Nat) (hb : ∀ c ∈ p, c < 256) :
    (watermark_binary p).length = 8 * p.length + 16 := by
  unfold watermark_binary
  rw [List.length_append, length_flatten_pyFormat08b p hb, delimiter_length]

set_option maxRecDepth 10000 in
theorem land254_lor_eq : ∀ r < 256, ∀ b < 2, (r &&& 254) ||| b = 2 * (r / 2) + b := by
  decide

theorem setLsb_r_div2 (px : Pixel) (bit : Bool) (h : px.r < 256) :
    (setLsb px bit).r / 2 = px.r / 2 := by
  have hb : (if bit then (1 : Nat) else 0) < 2 := by cases bit <;> decide
  show ((px.r &&& 254) ||| (if bit then 1 else 0)) / 2 = px.r / 2
  rw [land254_lor_eq px.r h _ hb]
  omega

/-! Claim theorems for the watermark codec (C1, C2, C3). -/

/-- Claim C1 counterexample: on a 32-pixel image with the two-byte payload
[255, 254] the capacity bound 8*2+16 ≤ 32 holds, yet the payload's own bit
expansion 1111111111111110 equals the 16-bit marker, so the spec's decoder
stops at bit 0 and returns `some []` instead of the payload. -/
theorem roundtrip_counterexample :
    8 * ([255, 254] : List Nat).length + 16
        ≤ (List.replicate 32 (⟨0, 0, 0⟩ : Pixel)).length
    ∧ decode_watermark (apply_watermark (List.replicate 32 ⟨0, 0, 0⟩) [255, 254])
        = some []
    ∧ decode_watermark (apply_watermark (List.replicate 32 ⟨0, 0, 0⟩) [255, 254])
        ≠ some [255, 254] :=
  ⟨by decide, by decide, by decide⟩

/-- Claim C1 (amended): the round-trip law restricted to marker-free
payloads. For every image and every byte payload `p` such that
`8*len(p)+16 ≤ pixelCount` and no 16-bit window of the payload's bit
expansion equals the marker, decoding the image produced by
`apply_watermark image p` recovers exactly `some p`. -/
theorem roundtrip_amended (img : Image) (p : List Nat)
    (hbytes : ∀ c ∈ p, c < 256)
    (hcap : 8 * p.length + 16 ≤ img.length)
    (hnomark : ∀ i < ((p.map pyFormat08b).flatten).length,
      (((p.map pyFormat08b).flatten).drop i).take 16 ≠ delimiter) :
    decode_watermark (apply_watermark img p) = some p := by
  set pb := (p.map pyFormat08b).flatten with hpb
  have hpblen : pb.length = 8 * p.length := length_flatten_pyFormat08b p hbytes
  have hwb : watermark_binary p = pb ++ delimiter := rfl
  have hwblen : (watermark_binary p).length = pb.length + 16 := by
    rw [hwb, List.length_append, delimiter_length]
  have hcap2 : (watermark_binary p).length ≤ img.length := by
    rw [hwblen, hpblen]; omega
  have hstream : lsbStream (apply_watermark img p)
      = (pb ++ delimiter) ++ (img.drop (watermark_binary p).length).map redLsb := by
    unfold apply_watermark
    rw [lsbStream_embedBits img (watermark_binary p) hcap2, hwb]
  set rest := (img.drop (watermark_binary p).length).map redLsb with hrest
  have hassoc : lsbStream (apply_watermark img p) = pb ++ (delimiter ++ rest) := by
    rw [hstream, List.append_assoc]
  have h1 : ((lsbStream (apply_watermark img p)).drop pb.length).take 16 = delimiter := by
    rw [hassoc, List.drop_left, ← delimiter_length, List.take_left]
  have h2 : ∀ j < pb.length,
      ((lsbStream (apply_watermark img p)).drop j).take 16 ≠ delimiter := by
    intro j hj
    rw [hassoc]
    by_cases hcase : j + 16 ≤ pb.length
    · rw [List.drop_append_eq_append_drop]
      have hlendrop : 16 ≤ (pb.drop j).length := by
        rw [List.length_drop]; omega
      rw [List.take_append_of_le_length hlendrop]
      exact hnomark j hj
    · intro heq
      have h15 : (((pb ++ (delimiter ++ rest)).drop j).take 16)[15]? = delimiter[15]? := by
        rw [heq]
      rw [List.getElem?_take, if_pos (by omega : (15 : Nat) < 16),
          List.getElem?_drop,
          List.getElem?_append_right (by omega : pb.length ≤ j + 15)] at h15
      have hklt : j + 15 - pb.length < delimiter.length := by
        rw [delimiter_length]; omega
      rw [List.getElem?_append, if_pos hklt] at h15
      have hk15 : j + 15 - pb.length < 15 := by omega
      rw [delimiter_getElem_lt15 _ hk15, delimiter_getElem_15] at h15
      simp at h15
  have hfmi : firstMarkerIndex (lsbStream (apply_watermark img p)) = some pb.length :=
    firstMarkerIndex_eq _ pb.length h1 h2
  have hdec : decode_watermark (apply_watermark img p)
      = some (bitsToBytes ((lsbStream (apply_watermark img p)).take pb.length)) := by
    unfold decode_watermark
    rw [hfmi]
  rw [hdec, hassoc, List.take_left, hpb, bitsToBytes_flatten p hbytes]

/-- Witness for `roundtrip_amended`: payload "hi" = [104, 105] on a 40-pixel
image round-trips. -/
theorem roundtrip_amended_witness :
    decode_watermark (apply_watermark (List.replicate 40 ⟨7, 3, 200⟩) [104, 105])
      = some [104, 105] :=
  roundtrip_amended (List.replicate 40 ⟨7, 3, 200⟩) [104, 105]
    (by decide) (by decide) (by decide)

/-- Claim C2 counterexample: for a one-pixel image and a one-byte payload the
claimed failure condition 8*1+16 > 1 holds, yet `apply_watermark` does not
fail: it returns a modified buffer carrying the first stream bit, a silently
truncated watermark the decoder cannot recover. -/
theorem capacity_counterexample :
    ([⟨0, 0, 0⟩] : Image).length < 8 * ([255] : List Nat).length + 16
    ∧ apply_watermark [⟨0, 0, 0⟩] [255] = [⟨1, 0, 0⟩]
    ∧ decode_watermark (apply_watermark [⟨0, 0, 0⟩] [255]) = none :=
  ⟨by decide, by decide, by decide⟩

/-- Claim C2 (amended): `apply_watermark` performs no capacity check and
never fails. It always returns a buffer of the same pixel count; whenever
the stream fits (including the exact boundary 8*len(p)+16 = pixelCount) the
full stream is embedded in the red LSBs, and when it does not fit the stream
is silently truncated to the first pixelCount bits. -/
theorem apply_watermark_total (img : Image) (p : List Nat) :
    (apply_watermark img p).length = img.length
    ∧ ((watermark_binary p).length ≤ img.length →
        lsbStream (apply_watermark img p)
          = watermark_binary p ++ (img.drop (watermark_binary p).length).map redLsb)
    ∧ (img.length ≤ (watermark_binary p).length →
        lsbStream (apply_watermark img p) = (watermark_binary p).take img.length) :=
  ⟨embedBits_length img _,
   fun h => lsbStream_embedBits img _ h,
   fun h => lsbStream_embedBits_trunc img _ h⟩

/-- Witness for `apply_watermark_total`: the over-capacity one-pixel case
receives exactly the first bit of the stream. -/
theorem apply_watermark_total_witness :
    lsbStream (apply_watermark [⟨0, 0, 0⟩] [255])
      = (watermark_binary [255]).take 1 :=
  (apply_watermark_total [⟨0, 0, 0⟩] [255]).2.2 (by decide)

/-- Claim C3: within capacity, `apply_watermark` returns a buffer of the
same pixel count in which pixel `i < 8*len(p)+16` carries bit `i` of the
spec's stream (payload bytes expanded MSB first, then the marker) in its red
LSB while its high red bits, green and blue channels are unchanged, and
every pixel at position `8*len(p)+16` or beyond is unchanged. The embedding
operates on a copy (`image.copy()`), so the source buffer is not mutated:
here `apply_watermark` is a pure function of its input. -/
theorem apply_watermark_bitExact (img : Image) (p : List Nat)
    (hbytes : ∀ c ∈ p, c < 256)
    (hred : ∀ px ∈ img, px.r < 256)
    (hcap : 8 * p.length + 16 ≤ img.length) :
    (apply_watermark img p).length = img.length
    ∧ (∀ i, i < 8 * p.length + 16 →
        (apply_watermark img p)[i]?.map redLsb = (specBits p)[i]?
        ∧ (apply_watermark img p)[i]?.map (fun px => px.r / 2)
            = img[i]?.map (fun px => px.r / 2)
        ∧ (apply_watermark img p)[i]?.map Pixel.g = img[i]?.map Pixel.g
        ∧ (apply_watermark img p)[i]?.map Pixel.b = img[i]?.map Pixel.b)
    ∧ (∀ i, 8 * p.length + 16 ≤ i → (apply_watermark img p)[i]? = img[i]?) := by
  have hwblen : (watermark_binary p).length = 8 * p.length + 16 :=
    watermark_binary_length p hbytes
  have hspec : watermark_binary p = specBits p := watermark_binary_eq_specBits p hbytes
  refine ⟨embedBits_length img _, ?_, ?_⟩
  · intro i hi
    have hi_img : i < img.length := lt_of_lt_of_le hi hcap
    have hi_wb : i < (watermark_binary p).length := by omega
    have hpx : img[i]? = some img[i] := List.getElem?_eq_getElem hi_img
    have hbit : (watermark_binary p)[i]? = some (watermark_binary p)[i] :=
      List.getElem?_eq_getElem hi_wb
    have hred_i : img[i].r < 256 := hred _ (List.getElem_mem hi_img)
    have hout : (apply_watermark img p)[i]?
        = some (setLsb img[i] (watermark_binary p)[i]) := by
      unfold apply_watermark
      rw [embedBits_getElem?]
      simp only [hpx, hbit, Option.map_some']
    refine ⟨?_, ?_, ?_, ?_⟩
    · rw [hout, ← hspec, hbit]
      simp only [Option.map_some', redLsb_setLsb]
    · rw [hout, hpx]
      simp only [Option.map_some']
      rw [setLsb_r_div2 _ _ hred_i]
    · rw [hout, hpx]
      rfl
    · rw [hout, hpx]
      rfl
  · intro i hi
    have hnone : (watermark_binary p)[i]? = none :=
      List.getElem?_eq_none (by omega)
    unfold apply_watermark
    rw [embedBits_getElem?]
    simp only [hnone]
    cases img[i]? <;> rfl

/-- Witness for `apply_watermark_bitExact` at payload [104] on a 24-pixel
image (the exact-capacity boundary). -/
theorem apply_watermark_bitExact_witness :
    (apply_watermark (List.replicate 24 ⟨5, 6, 7⟩) [104]).length
      = (List.replicate 24 (⟨5, 6, 7⟩ : Pixel)).length :=
  (apply_watermark_bitExact (List.replicate 24 ⟨5, 6, 7⟩) [104]
    (by decide) (by decide) (by decide)).1

/-! Claim theorems for the verdict engine (C4, C5, C6, C7, C9). -/

/-- Claim C5: for a non-empty record sequence, the record the verdict code
treats as latest (`records[0]` re-read after the in-place descending sort)
is the record with the lexicographically greatest timestamp string, with
ties on that greatest timestamp broken in favour of the record occurring
first in the input sequence. -/
theorem codeLatest_is_first_greatest (rs : List Record) (h : rs ≠ []) :
    some (codeLatest rs) = specLatest rs
    ∧ ∀ r ∈ rs, tsKey r ≤ tsKey (codeLatest rs) := by
  refine ⟨codeLatest_eq_specLatest rs h, ?_⟩
  intro r hr
  cases rs with
  | nil => exact absurd rfl h
  | cons x xs =>
      have hc : codeLatest (x :: xs) = xs.foldl pickLater x := by
        have hs := codeLatest_eq_specLatest (x :: xs) h
        simp only [specLatest] at hs
        exact Option.some.inj hs
      rw [hc]
      exact tsKey_le_foldl_pickLater xs x r hr

/-- Witness for `codeLatest_is_first_greatest`: three records, the first two
tied on the greatest timestamp; the first input record is chosen. -/
theorem codeLatest_is_first_greatest_witness :
    some (codeLatest [⟨some ['a'], some ['2']⟩, ⟨some ['b'], some ['2']⟩,
        ⟨some ['c'], some ['1']⟩])
      = specLatest [⟨some ['a'], some ['2']⟩, ⟨some ['b'], some ['2']⟩,
        ⟨some ['c'], some ['1']⟩] :=
  (codeLatest_is_first_greatest _ (by decide)).1

/-- Claim C4 counterexample: with a recovered empty-string payload and one
matching record whose identifier is also the empty string, the claimed row
"payload equals the latest record's identifier → VERIFIED 0.98" applies,
but the code, which tests Python truthiness first, returns
POTENTIALLY_ALTERED with confidence 0.75. -/
theorem verdict_table_counterexample :
    claimVerdictTable (some []) [⟨some [], some ['1']⟩]
      = some (Classification.VERIFIED, 98 / 100)
    ∧ (determine_verdict (some []) ['h'] [⟨some [], some ['1']⟩]).1.verdict
      = Classification.POTENTIALLY_ALTERED
    ∧ (determine_verdict (some []) ['h'] [⟨some [], some ['1']⟩]).1.confidence
      = 75 / 100 :=
  ⟨rfl, rfl, rfl⟩

/-- Claim C4 (amended): the decision table holds with "present" read as
present and non-empty (Python truthiness; an empty-string payload counts as
absent): every input matched by a row of the amended table receives exactly
that row's verdict and confidence, rows evaluated in priority order, first
match wins. -/
theorem length_pos_ite (c : Prop) [Decidable c] (r0 : Record) (rtl : List Record) :
    0 < (if c then sortDesc (r0 :: rtl) else r0 :: rtl).length := by
  split
  · rw [(sortDesc_perm (r0 :: rtl)).length_eq]
    simp
  · simp

theorem determine_verdict_matches_table (wm : Option Str) (ph : Str)
    (rs : List Record) (c : Classification) (q : ℚ)
    (h : amendedVerdictTable wm rs = some (c, q)) :
    (determine_verdict wm ph rs).1.verdict = c
    ∧ (determine_verdict wm ph rs).1.confidence = q := by
  cases rs with
  | nil =>
      simp only [amendedVerdictTable] at h
      by_cases hw : pyTruthy wm
      · rw [if_pos hw] at h
        exact absurd h (by simp)
      · rw [if_neg hw] at h
        have h2 := Option.some.inj h
        cases h2
        exact ⟨rfl, rfl⟩
  | cons r0 rtl =>
      have hcl : codeLatest (r0 :: rtl) = rtl.foldl pickLater r0 := by
        have hs := codeLatest_eq_specLatest (r0 :: rtl) (by simp)
        simp only [specLatest] at hs
        exact Option.some.inj hs
      simp only [amendedVerdictTable] at h
      by_cases h1 : watermarkMatchesLatest wm (rtl.foldl pickLater r0)
      · rw [if_pos h1] at h
        have h2 := Option.some.inj h
        cases h2
        constructor <;> simp [determine_verdict, hcl, h1]
      · rw [if_neg h1] at h
        by_cases h2 : pyTruthy wm
        · rw [if_pos h2] at h
          have h3 := Option.some.inj h
          cases h3
          constructor <;> simp [determine_verdict, hcl, h1, h2]
        · rw [if_neg h2] at h
          have h3 := Option.some.inj h
          cases h3
          constructor <;> simp [determine_verdict, hcl, h1, h2, length_pos_ite]

/-- Witness for `determine_verdict_matches_table`: a truthy payload equal to
the single record's identifier is VERIFIED with confidence 0.98. -/
theorem determine_verdict_matches_table_witness :
    (determine_verdict (some ['d']) ['h'] [⟨some ['d'], some ['1']⟩]).1.verdict
      = Classification.VERIFIED
    ∧ (determine_verdict (some ['d']) ['h'] [⟨some ['d'], some ['1']⟩]).1.confidence
      = 98 / 100 :=
  determine_verdict_matches_table (some ['d']) ['h'] [⟨some ['d'], some ['1']⟩]
    Classification.VERIFIED (98 / 100) rfl

/-- Claim C6: verdict determination is a total function of its inputs; the
classification is always one of the three values, the evidence always
reports watermarkFound exactly when a payload is present (`is not None`)
and hashMatch exactly when the record sequence is non-empty, and the
reported documentId is the latest matched record's id whenever records
exist. -/
theorem determine_verdict_total (wm : Option Str) (ph : Str) (rs : List Record) :
    ((determine_verdict wm ph rs).1.verdict = Classification.VERIFIED
      ∨ (determine_verdict wm ph rs).1.verdict = Classification.POTENTIALLY_ALTERED
      ∨ (determine_verdict wm ph rs).1.verdict = Classification.NOT_REGISTERED)
    ∧ (determine_verdict wm ph rs).1.details.watermarkFound = wm.isSome
    ∧ (determine_verdict wm ph rs).1.details.hashMatch = decide (0 < rs.length)
    ∧ (determine_verdict wm ph rs).1.details.documentId
        = (if rs.isEmpty then none else (codeLatest rs).documentId) := by
  cases rs with
  | nil => exact ⟨Or.inr (Or.inr rfl), rfl, rfl, rfl⟩
  | cons r0 rtl =>
      by_cases h1 : watermarkMatchesLatest wm (codeLatest (r0 :: rtl))
      · refine ⟨Or.inl ?_, ?_, ?_, ?_⟩ <;> simp [determine_verdict, h1]
      · by_cases h2 : pyTruthy wm
        · refine ⟨Or.inr (Or.inl ?_), ?_, ?_, ?_⟩ <;>
            simp [determine_verdict, h1, h2]
        · refine ⟨Or.inr (Or.inl ?_), ?_, ?_, ?_⟩ <;>
            simp [determine_verdict, h1, h2, length_pos_ite]

/-- Claim C7 counterexample: `_determine_verdict` sorts the caller's list in
place; with two records in ascending timestamp order the sequence the
caller holds after the call is reordered, not unchanged. -/
theorem classify_mutates_counterexample :
    (determine_verdict none ['h']
        [⟨some ['a'], some ['1']⟩, ⟨some ['b'], some ['2']⟩]).2
      ≠ [⟨some ['a'], some ['1']⟩, ⟨some ['b'], some ['2']⟩] := by decide

/-- The list state `_determine_verdict` leaves behind: the input itself for
at most one record, otherwise the descending-sorted input. -/
theorem determine_verdict_snd (wm : Option Str) (ph : Str) (rs : List Record) :
    (determine_verdict wm ph rs).2 = if 1 < rs.length then sortDesc rs else rs := by
  cases rs with
  | nil => rfl
  | cons r0 rtl =>
      by_cases h1 : watermarkMatchesLatest wm (codeLatest (r0 :: rtl))
      · simp [determine_verdict, h1]
      · by_cases h2 : pyTruthy wm
        · simp [determine_verdict, h1, h2]
        · simp [determine_verdict, h1, h2, length_pos_ite]

/-- Claim C7 (amended): verdict determination modifies no record and adds or
removes none; the list it leaves behind is always a permutation of the input
(the in-place stable descending sort by timestamp; the input order itself is
preserved only when the list has at most one element). -/
theorem determine_verdict_perm (wm : Option Str) (ph : Str) (rs : List Record) :
    ((determine_verdict wm ph rs).2).Perm rs := by
  rw [determine_verdict_snd]
  split
  · exact sortDesc_perm rs
  · exact List.Perm.refl rs

/-- Claim C9: whenever the matching-record sequence is empty the verdict is
NOT_REGISTERED with confidence 0.95 regardless of the watermark payload,
including the case of a successfully recovered payload with no matching
ledger record. -/
theorem empty_records_not_registered (wm : Option Str) (ph : Str) :
    (determine_verdict wm ph []).1.verdict = Classification.NOT_REGISTERED
    ∧ (determine_verdict wm ph []).1.confidence = 95 / 100 :=
  ⟨rfl, rfl⟩

/-! Claim theorems for the worker loop (C8, C10). -/

/-- Claim C8: in every run of the worker's per-job step sequence the queue
message is deleted only after the upload has succeeded: a deletion in the
trace forces a successful download and upload with the upload strictly
before the deletion in the trace, and any failure before or during upload
(JSON parse failure, missing keys, download failure, upload failure) leaves
the message undeleted in the queue for redelivery. -/
theorem ack_only_after_upload (env : JobEnv) :
    (WAction.deleteMessage ∈ (process_sqs_message env).trace →
        env.uploadOk = true ∧ env.downloadOk = true
        ∧ (process_sqs_message env).trace
            = [WAction.receive, WAction.download, WAction.embedAttempt,
               WAction.upload env.stegOk, WAction.deleteMessage])
    ∧ (env.uploadOk = false →
        WAction.deleteMessage ∉ (process_sqs_message env).trace) := by
  obtain ⟨m, j, k, d, s, u⟩ := env
  cases m <;> cases j <;> cases k <;> cases d <;> cases s <;> cases u <;> decide

/-- Witness for `ack_only_after_upload`: the all-success run performs
receive, download, embed, upload, then delete, in that order. -/
theorem ack_only_after_upload_witness :
    (process_sqs_message ⟨true, true, true, true, true, true⟩).trace
      = [WAction.receive, WAction.download, WAction.embedAttempt,
         WAction.upload true, WAction.deleteMessage] :=
  ((ack_only_after_upload ⟨true, true, true, true, true, true⟩).1 (by decide)).2.2

/-- Claim C10 counterexample: in the worker as shipped, a job whose queue
read, JSON shape, S3 get, S3 put all succeed and whose embedding fails (as
it always does) never uploads anything and never acknowledges: the run dies
raising NameError inside the download step (`io` is never imported), so the
claimed consequence — upload of the un-watermarked original followed by
acknowledgement — happens in no execution. -/
theorem embed_fallback_counterexample :
    (process_sqs_message (shippedEnv true true true true false true)).trace
      = [WAction.receive, WAction.download]
    ∧ (process_sqs_message (shippedEnv true true true true false true)).raised = true
    ∧ WAction.upload false ∉
        (process_sqs_message (shippedEnv true true true true false true)).trace
    ∧ WAction.deleteMessage ∉
        (process_sqs_message (shippedEnv true true true true false true)).trace :=
  ⟨rfl, rfl, by decide, by decide⟩

/-- Claim C10 (amended): the embedding operations themselves never raise to
their caller — `embed_watermark` and `apply_watermark` return the original
image unchanged on any internal failure — but the shipped worker never
reaches them: `download_image_from_s3` always raises NameError (the bare
name `io` is never imported, src/watermarker/main.py line 191), so for
every combination of external outcomes the run uploads nothing,
acknowledges nothing, and leaves the message in the queue. -/
theorem embed_failure_fallback (img : Image) (p : List Nat)
    (hasMessage jsonOk keysPresent s3GetOk stegOk s3PutOk : Bool) :
    embed_watermark none img = img
    ∧ apply_watermark_guarded true img p = img
    ∧ (shippedEnv hasMessage jsonOk keysPresent s3GetOk stegOk s3PutOk).downloadOk
        = false
    ∧ WAction.upload false ∉ (process_sqs_message
        (shippedEnv hasMessage jsonOk keysPresent s3GetOk stegOk s3PutOk)).trace
    ∧ WAction.upload true ∉ (process_sqs_message
        (shippedEnv hasMessage jsonOk keysPresent s3GetOk stegOk s3PutOk)).trace
    ∧ WAction.deleteMessage ∉ (process_sqs_message
        (shippedEnv hasMessage jsonOk keysPresent s3GetOk stegOk s3PutOk)).trace := by
  refine ⟨rfl, rfl, ?_, ?_, ?_, ?_⟩ <;>
    cases hasMessage <;> cases jsonOk <;> cases keysPresent <;>
      cases s3GetOk <;> cases stegOk <;> cases s3PutOk <;> decide

end Hatchmark
